import Mathlib

/-!
# Verification of the reader3 normalization and search core

This file gives a shallow embedding, in Lean 4, of the parts of
`reader3.py` and `semantic_search.py` that the specification's claims
are about, and proves (or refutes) each claim against that embedding.

Strings from the Python side are modelled as `List Char` (Python `str`
is a sequence of code points; for `sanitize_text`, which must also
represent lone UTF-16 surrogates that Lean's `Char` cannot hold, we use
`List ℕ` of raw code points instead).  Machine floats in the BM25
scorer are modelled with exact rationals, with the transcendental
`math.log` idf factor passed as an explicit positive parameter.
-/

namespace Reader3

/-! ## Tokenizer (`semantic_search.py`, lines 19-51)

`TOKEN_RE = re.compile(r"[A-Za-z0-9']+")`: a token is a maximal run of
ASCII letters, digits and apostrophes. -/

/-- A character matched by the class `[A-Za-z0-9']` of `TOKEN_RE`. -/
def isTokenChar (c : Char) : Bool :=
  (('A' ≤ c && c ≤ 'Z') || ('a' ≤ c && c ≤ 'z') || ('0' ≤ c && c ≤ '9')
    || c = '\'')

/-- Accumulator pass splitting a string into the maximal runs of
characters satisfying `p`, in order. -/
def runsAux (p : Char → Bool) : List Char → List Char → List (List Char)
  | [], acc => if acc = [] then [] else [acc.reverse]
  | c :: cs, acc =>
      if p c then runsAux p cs (c :: acc)
      else (if acc = [] then [] else [acc.reverse]) ++ runsAux p cs []

/-- All matches of `TOKEN_RE` in a string, in order
(`TOKEN_RE.finditer` / `TOKEN_RE.findall`). -/
def splitRuns (s : List Char) : List (List Char) :=
  runsAux isTokenChar s []

/-- Python `str.split()` with no separator: the maximal runs of
non-whitespace characters. -/
def pyWords (s : List Char) : List (List Char) :=
  runsAux (fun c => !c.isWhitespace) s []

/-- Python `str.lower()` restricted to ASCII.  Faithful on every
character a `TOKEN_RE` match can contain (`[A-Za-z0-9']`). -/
def pyLower (c : Char) : Char :=
  if 'A' ≤ c && c ≤ 'Z' then Char.ofNat (c.toNat + 32) else c

/-- Python `token.strip("'")`: remove leading and trailing apostrophes. -/
def stripQuotes (t : List Char) : List Char :=
  ((t.dropWhile (· = '\'')).reverse.dropWhile (· = '\'')).reverse

/-- Python `str.isdigit()` restricted to ASCII digits, faithful on the
`TOKEN_RE` alphabet.  (`"".isdigit()` is `False`.) -/
def isDigits (t : List Char) : Bool :=
  !t.isEmpty && t.all (fun c => '0' ≤ c && c ≤ '9')

/-- The fixed suffix list of `_normalize_token`, in source order. -/
def suffixList : List (List Char) :=
  ["ing".toList, "edly".toList, "ed".toList, "ly".toList, "es".toList,
   "s".toList]

/-- The suffix loop of `_normalize_token`: test each suffix in order
and strip the first one with `token.endswith(suffix)` and
`len(token) > len(suffix) + 2`; the `break` means at most one suffix is
ever stripped. -/
def stripOneSuffixAux (t : List Char) : List (List Char) → List Char
  | [] => t
  | s :: rest =>
      if s.isSuffixOf t && s.length + 2 < t.length then
        t.take (t.length - s.length)
      else stripOneSuffixAux t rest

/-- Model of `_normalize_token`'s suffix-stripping step over the full list. -/
def stripOneSuffix (t : List Char) : List Char :=
  stripOneSuffixAux t suffixList

/-- Model of `_normalize_token` (`semantic_search.py` lines 32-42): trim
apostrophes, lowercase, drop tokens shorter than 2 characters or purely
numeric (returning `""`), then strip at most one suffix. -/
def normalizeToken (t : List Char) : List Char :=
  let t := (stripQuotes t).map pyLower
  if t.length < 2 then []
  else if isDigits t then []
  else stripOneSuffix t

/-- The `STOPWORDS` set (`semantic_search.py` lines 21-27). -/
def stopwordList : List (List Char) :=
  ["a", "an", "and", "are", "as", "at", "be", "but", "by", "for", "from",
   "has", "have", "he", "her", "his", "i", "in", "is", "it", "its", "me",
   "my", "not", "of", "on", "or", "our", "she", "that", "the", "their",
   "them", "there", "these", "they", "this", "to", "was", "were", "will",
   "with", "you", "your"].map String.toList

/-- The accumulation loop of `_tokenize`: normalize each match and
keep it when non-empty and not a stopword (`if token and token not in
STOPWORDS: tokens.append(token)`). -/
def keepTokens : List (List Char) → List (List Char)
  | [] => []
  | tok :: rest =>
      let n := normalizeToken tok
      if n ≠ [] ∧ n ∉ stopwordList then n :: keepTokens rest
      else keepTokens rest

/-- Model of `_tokenize` (`semantic_search.py` lines 45-51): normalize each
`TOKEN_RE` match and keep it when non-empty and not a stopword. -/
def tokenize (s : List Char) : List (List Char) :=
  keepTokens (splitRuns s)

/-! ### The claim C2 reference pipeline

Stated from the spec's words (§4.6 as read by claim C2): split on runs;
lowercase; drop short tokens; drop numeric tokens; drop stopwords; THEN
strip one suffix.  (No apostrophe trimming, and stopwords filtered
before stripping.)  This is the definition the code is compared with. -/

/-- The tokenization pipeline exactly as claim C2 words it. -/
def claimPipeline (s : List Char) : List (List Char) :=
  ((((splitRuns s).map (List.map pyLower)).filter
      (fun t => 2 ≤ t.length)).filter
      (fun t => ¬ isDigits t)).filter
      (fun t => t ∉ stopwordList) |>.map stripOneSuffix

/-- The amended reference pipeline: additionally trim surrounding
apostrophes before the length test (as `_normalize_token` does), and
apply the stopword filter after suffix-stripping, to the stripped
token, rather than before. -/
def amendedPipeline (s : List Char) : List (List Char) :=
  (((((splitRuns s).map (fun t => (stripQuotes t).map pyLower)).filter
      (fun t => 2 ≤ t.length)).filter
      (fun t => ¬ isDigits t)).map stripOneSuffix).filter
      (fun t => t ∉ stopwordList)

/-! ## Text sanitizer (`reader3.py`, lines 146-161)

Python strings can carry lone UTF-16 surrogate code points, which
Lean's `Char` cannot represent, so `sanitize_text` is modelled on raw
code-point sequences `List ℕ`. -/

/-- Is a code point a UTF-16 surrogate (`0xD800 ≤ c ≤ 0xDFFF`)? -/
def isSurrogate (c : ℕ) : Bool :=
  0xD800 ≤ c && c ≤ 0xDFFF

/-- Model of `sanitize_text` (`reader3.py` lines 146-161) on a (non-`None`)
string: if no surrogate is present return the input unchanged,
otherwise replace every surrogate by `U+FFFD`. -/
def sanitizeText (s : List ℕ) : List ℕ :=
  if s.any isSurrogate then
    s.map (fun c => if isSurrogate c then 0xFFFD else c)
  else s

/-! ## Term-frequency counters (`collections.Counter`) -/

/-- One step of `Counter(tokens)`: bump the count of `t`, inserting it
with count 1 on first occurrence (Python dicts keep insertion order). -/
def counterAdd (m : List (List Char × ℕ)) (t : List Char) :
    List (List Char × ℕ) :=
  match m with
  | [] => [(t, 1)]
  | (k, v) :: rest =>
      if k = t then (k, v + 1) :: rest else (k, v) :: counterAdd rest t

/-- Model of `Counter(tokens)` as an insertion-ordered association list. -/
def counter (toks : List (List Char)) : List (List Char × ℕ) :=
  toks.foldl counterAdd []

/-- Total of the counts of a term-frequency map. -/
def sumCounts (m : List (List Char × ℕ)) : ℕ :=
  (m.map Prod.snd).sum

/-- Model of `term_freq.get(term, 0)` lookup in a term-frequency map. -/
def tfGet (m : List (List Char × ℕ)) (t : List Char) : ℕ :=
  match m with
  | [] => 0
  | (k, v) :: rest => if k = t then v else tfGet rest t

/-! ## The canonical Book data model (`reader3.py`, lines 20-116)

Fields that no claim inspects and that depend on external libraries
(annotation records, image-map bookkeeping, cover extraction) are kept
as plain data carried through unchanged; HTML processing done by
BeautifulSoup is represented by the already-processed `content`/`text`
values supplied with each input item. -/

/-- Model of `ChapterContent` (`reader3.py` lines 20-31). -/
structure ChapterContent where
  id : List Char
  href : List Char
  title : List Char
  content : List Char
  text : List Char
  order : ℕ
  deriving DecidableEq

/-- Model of `TOCEntry` (`reader3.py` lines 34-41). -/
inductive TOCEntry where
  | mk (title href file_href anchor : List Char) (children : List TOCEntry)

/-- Model of `BookMetadata` (`reader3.py` lines 44-53). -/
structure BookMetadata where
  title : List Char
  language : List Char
  authors : List (List Char) := []
  description : Option (List Char) := none
  publisher : Option (List Char) := none
  date : Option (List Char) := none
  identifiers : List (List Char) := []
  subjects : List (List Char) := []

/-- Model of `PDFPageData` (`reader3.py` lines 84-94); the annotation list is
carried as opaque page-supplied data. -/
structure PDFPageData where
  page_num : ℕ
  width : ℚ
  height : ℚ
  rotation : ℤ
  has_images : Bool := false
  word_count : ℕ := 0
  deriving DecidableEq

/-- Model of `Book` (`reader3.py` lines 96-116). -/
structure Book where
  metadata : BookMetadata
  spine : List ChapterContent
  toc : List TOCEntry
  images : List (List Char × List Char)
  source_file : List Char
  processed_at : List Char
  added_at : List Char := []
  version : List Char := "3.0".toList
  is_pdf : Bool := false
  cover_image : Option (List Char) := none
  pdf_page_data : List (ℕ × PDFPageData) := []
  pdf_total_pages : ℕ := 0
  pdf_has_toc : Bool := false
  pdf_thumbnails_generated : Bool := false
  pdf_source_path : Option (List Char) := none

/-! ## Per-book index builder (`semantic_search.py`, lines 54-125) -/

/-- One entry of the persisted index's `documents` list
(`semantic_search.py` lines 105-113). -/
structure IndexDoc where
  chapter_index : ℕ
  chapter_title : List Char
  chapter_href : List Char
  length : ℕ
  term_freq : List (List Char × ℕ)
  deriving DecidableEq

/-- The index record built by `ensure_book_index`
(`semantic_search.py` lines 115-123). -/
structure BookIndex where
  index_version : ℕ
  book_id : List Char
  book_title : List Char
  processed_at : List Char
  generated_at : List Char
  chapter_count : ℕ
  documents : List IndexDoc

/-- The `documents` loop of `ensure_book_index` (lines 98-113): one
entry per spine chapter whose text tokenizes to at least one token;
chapters with zero tokens are omitted entirely. -/
def buildDocumentsAux (i : ℕ) : List ChapterContent → List IndexDoc
  | [] => []
  | ch :: rest =>
      let toks := tokenize ch.text
      if toks = [] then buildDocumentsAux (i + 1) rest
      else
        { chapter_index := i
          chapter_title := ch.title
          chapter_href := ch.href
          length := toks.length
          term_freq := counter toks } :: buildDocumentsAux (i + 1) rest

/-- Model of `documents` for a whole spine (enumeration starts at 0). -/
def buildDocuments (spine : List ChapterContent) : List IndexDoc :=
  buildDocumentsAux 0 spine

/-- The fresh index assembled by `ensure_book_index` (lines 115-123);
`generated_at` (`datetime.utcnow()`) is supplied as a parameter. -/
def buildIndex (book_id : List Char) (book : Book)
    (generated_at : List Char) : BookIndex :=
  { index_version := 1
    book_id := book_id
    book_title := book.metadata.title
    processed_at := book.processed_at
    generated_at := generated_at
    chapter_count := book.spine.length
    documents := buildDocuments book.spine }

/-! ## Loading the persisted index (`semantic_search.py`, lines 58-96)

`_load_index` reads `semantic_index.json` with `json.load`.  The file
on disk is modelled by a `FileState`: missing, present but not valid
JSON (where `json.load` raises `JSONDecodeError`), or present with a
parsed JSON value.  The mtime-keyed in-memory cache (lines 61-64,
which only avoids re-reading an unchanged file) is not modelled.
Failures are modelled with `Except`, as `ensure_book_index` has no
exception handler. -/

/-- A parsed JSON value, just rich enough for `_should_rebuild`. -/
inductive JsonVal where
  | null
  | bool (b : Bool)
  | num (n : ℤ)
  | str (s : List Char)
  | arr (xs : List JsonVal)
  | obj (kvs : List (List Char × JsonVal))

/-- Python truthiness of a JSON value (`if not index: ...`). -/
def jsonTruthy : JsonVal → Bool
  | .null => false
  | .bool b => b
  | .num n => n ≠ 0
  | .str s => s ≠ []
  | .arr xs => !xs.isEmpty
  | .obj kvs => !kvs.isEmpty

/-- Model of `index.get(key)`: defined for JSON objects; on any other truthy
value the Python attribute access raises `AttributeError`. -/
def jsonGet (j : JsonVal) (key : List Char) : Except (List Char) (Option JsonVal) :=
  match j with
  | .obj kvs => .ok ((kvs.find? (fun kv => kv.1 = key)).map Prod.snd)
  | _ => .error "AttributeError".toList

/-- The contents of the index file on disk. -/
inductive FileState where
  | missing
  | invalidJson
  | parsed (j : JsonVal)

/-- Model of `_load_index` (lines 58-68): `None` when the file is missing, the
parsed value otherwise; `json.load` raises on malformed contents. -/
def loadIndex : FileState → Except (List Char) (Option JsonVal)
  | .missing => .ok none
  | .invalidJson => .error "JSONDecodeError".toList
  | .parsed j => .ok (some j)

/-- Python `value == n` for an optional JSON value against an integer
(`INDEX_VERSION` / `len(book.spine)`). -/
def jsonIsNum (v : Option JsonVal) (n : ℤ) : Bool :=
  match v with
  | some (.num m) => m = n
  | _ => false

/-- Python `value == s` for an optional JSON value against a string
(`book.processed_at`). -/
def jsonIsStr (v : Option JsonVal) (s : List Char) : Bool :=
  match v with
  | some (.str t) => t = s
  | _ => false

/-- Model of `_should_rebuild` (lines 79-88) on the loaded value: rebuild when
absent, falsy, or any fingerprint field mismatches; an exception from
the attribute access propagates. -/
def shouldRebuild (index : Option JsonVal) (book : Book) :
    Except (List Char) Bool :=
  match index with
  | none => .ok true
  | some j =>
    if ¬ jsonTruthy j then .ok true
    else
      match jsonGet j "index_version".toList with
      | .error e => .error e
      | .ok v =>
        if ¬ jsonIsNum v 1 then .ok true
        else
          match jsonGet j "processed_at".toList with
          | .error e => .error e
          | .ok p =>
            if ¬ jsonIsStr p book.processed_at then .ok true
            else
              match jsonGet j "chapter_count".toList with
              | .error e => .error e
              | .ok c =>
                if ¬ jsonIsNum c book.spine.length then .ok true
                else .ok false

/-- The value `ensure_book_index` returns: either the loaded JSON
object unchanged (fresh enough), or a newly built index (which is then
persisted). -/
inductive EnsureResult where
  | cached (j : JsonVal)
  | rebuilt (idx : BookIndex)

/-- Model of `ensure_book_index` (lines 91-125): load, check staleness, and
either return the loaded index or rebuild from the book's spine.
Exceptions escaping `json.load` / attribute access propagate. -/
def ensureBookIndex (book_id : List Char) (book : Book)
    (fileState : FileState) (generated_at : List Char) :
    Except (List Char) EnsureResult :=
  match loadIndex fileState with
  | .error e => .error e
  | .ok index =>
    match shouldRebuild index book with
    | .error e => .error e
    | .ok rebuild =>
      if ¬ rebuild then
        match index with
        | some j => .ok (.cached j)
        | none =>
            -- unreachable: `shouldRebuild none book` is `true`
            .ok (.rebuilt (buildIndex book_id book generated_at))
      else .ok (.rebuilt (buildIndex book_id book generated_at))

/-! ## BM25 ranker (`semantic_search.py`, lines 160-254)

Floats are modelled with exact rationals.  The transcendental idf
factor `math.log(1 + (N - df + 0.5) / (df + 0.5))` (line 217) is
supplied as a function parameter `idf N df`; it is strictly positive
for every reachable input, since `df ≤ N` makes the argument of the
logarithm strictly greater than 1.  The context-snippet construction
(`_build_context` / `_find_match`, applied elementwise to the final
ranked list) is elided: it maps each scored entry to a display record
and affects neither which chapters appear nor their order. -/

/-- The raw query words of `semantic_search_books` (lines 168-169):
lowercased `TOKEN_RE` matches of length `> 1` not in `STOPWORDS`. -/
def rawQueryTokens (query : List Char) : List (List Char) :=
  ((splitRuns query).map (List.map pyLower)).filter
    (fun t => 1 < t.length ∧ t ∉ stopwordList)

/-- The normalized query terms (lines 170-171): `_normalize_token`
applied to each raw word, keeping non-empty non-stopword results. -/
def queryTerms (query : List Char) : List (List Char) :=
  ((rawQueryTokens query).map normalizeToken).filter
    (fun t => t ≠ [] ∧ t ∉ stopwordList)

/-- Model of `k1 = 1.2` (line 205). -/
def bm25K1 : ℚ := 6 / 5

/-- Model of `b = 0.75` (line 206). -/
def bm25B : ℚ := 3 / 4

/-- Model of `avg_doc_len` (line 196): mean length over the whole pooled
corpus. -/
def avgDocLen (docs : List IndexDoc) : ℚ :=
  ((docs.map (fun d => (d.length : ℚ))).sum) / docs.length

/-- Model of `term in term_freq`: key presence in a term-frequency map. -/
def tfHasKey (m : List (List Char × ℕ)) (t : List Char) : Bool :=
  m.any (fun kv => kv.1 = t)

/-- Model of `df[term]` (lines 198-203): number of pooled documents whose
term-frequency map contains the term (key presence, not count). -/
def docFreq (docs : List IndexDoc) (term : List Char) : ℕ :=
  (docs.filter (fun d => tfHasKey d.term_freq term)).length

/-- The per-document scoring loop body (lines 213-219), summed over
the distinct query terms: terms with `tf ≤ 0` contribute nothing, the
others `idf * tf * (k1+1) / (tf + k1*(1 - b + b * doc_len/avg))`. -/
def docScore (idf : ℕ → ℕ → ℚ) (totalDocs : ℕ)
    (dfOf : List Char → ℕ) (avg : ℚ) (terms : List (List Char))
    (d : IndexDoc) : ℚ :=
  (terms.map (fun term =>
    let tf : ℕ := tfGet d.term_freq term
    if tf = 0 then 0
    else
      idf totalDocs (dfOf term) *
        ((tf : ℚ) * (bm25K1 + 1) /
          ((tf : ℚ) + bm25K1 *
            (1 - bm25B + bm25B * (d.length : ℚ) / avg))))).sum

/-- A ranked search result; the context-snippet fields built in lines
225-252 are elided (see the section comment). -/
structure SearchResult where
  book_id : List Char
  chapter_index : ℕ
  chapter_href : List Char
  chapter_title : List Char
  score : ℚ

/-- Stable insertion of one scored entry, used to model Python's
stable `sort(..., reverse=True)` by score. -/
def insertByScore (x : SearchResult) :
    List SearchResult → List SearchResult
  | [] => [x]
  | y :: ys =>
      if y.score < x.score then x :: y :: ys
      else y :: insertByScore x ys

/-- Stable descending sort by score (line 223). -/
def sortByScore : List SearchResult → List SearchResult
  | [] => []
  | x :: xs => insertByScore x (sortByScore xs)

/-- Model of `semantic_search_books` (lines 160-254) over an already pooled
document list (the pooling loop of lines 179-190 keeps, for each
requested book, the indexed documents of positive length; book loading
and `ensure_book_index` I/O are behind that pooling).  Returns the
ranked results, truncated to `limit`. -/
def semanticSearchBooks (idf : ℕ → ℕ → ℚ) (query : List Char)
    (pool : List (List Char × IndexDoc)) (limit : ℕ) :
    List SearchResult :=
  let qterms := queryTerms query
  if qterms = [] then []
  else
    let docs := pool.filter (fun p => 0 < p.2.length)
    if docs = [] then []
    else
      let totalDocs := docs.length
      let avg := avgDocLen (docs.map Prod.snd)
      let dfOf := fun t => docFreq (docs.map Prod.snd) t
      let scored := (docs.map (fun p =>
        { book_id := p.1
          chapter_index := p.2.chapter_index
          chapter_href := p.2.chapter_href
          chapter_title := p.2.chapter_title
          score := docScore idf totalDocs dfOf avg qterms.dedup p.2
          : SearchResult })).filter (fun r => 0 < r.score)
      (sortByScore scored).take limit

/-! ## EPUB normalizer spine loop (`reader3.py`, lines 1217-1266)

`process_epub` iterates `enumerate(book.spine)`; for each spine item
it looks the item up by id (skipping the position when the lookup
fails) and keeps it only when `is_content_document` holds.  A kept
item's chapter carries `order = i`, the *enumeration* index of the
spine item, not the position in the resulting list.  The BeautifulSoup
processing (image rewriting, cleaning, body extraction, plain-text
extraction) is represented by the processed `content`/`text` carried
with each item; it does not touch `order`, and the later
`sanitize_book_text_fields` call leaves `order` untouched as well. -/

/-- One entry of the EPUB spine, as seen by the loop: whether
`get_item_with_id` found it, whether `is_content_document` holds, and
its already-processed payload. -/
structure EpubSpineItem where
  item_id : List Char
  found : Bool
  isContent : Bool
  href : List Char
  content : List Char
  text : List Char

/-- Model of `f"Section {i+1}"`. -/
def sectionTitle (i : ℕ) : List Char :=
  "Section ".toList ++ (Nat.repr (i + 1)).toList

/-- The spine-building loop of `process_epub` (lines 1218-1266),
enumerating from `i`. -/
def epubSpineAux (i : ℕ) : List EpubSpineItem → List ChapterContent
  | [] => []
  | it :: rest =>
      if it.found && it.isContent then
        { id := it.item_id
          href := it.href
          title := sectionTitle i
          content := it.content
          text := it.text
          order := i } :: epubSpineAux (i + 1) rest
      else epubSpineAux (i + 1) rest

/-- The spine of the Book built by `process_epub`. -/
def epubSpine (items : List EpubSpineItem) : List ChapterContent :=
  epubSpineAux 0 items

/-! ## PDF normalizer page loop (`reader3.py`, lines 668-782, 836-866)

Each page of a validated PDF either processes fully or fails at one of
three points (page load, image render, or any other exception inside
the loop body), in which case a placeholder chapter and page record
are inserted and the index is recorded in `failed_pages`.  A page
whose *text* extraction alone fails is not a failure: its text is set
to `""` and processing continues.  Rendering, annotation and thumbnail
I/O are external; a page's outcome is therefore supplied as input. -/

/-- The outcome of the externally-performed work on one PDF page. -/
inductive PageOutcome where
  | loadFail (msg : List Char)
  | renderFail (msg : List Char)
  | unexpectedFail (msg : List Char)
  | ok (text : Option (List Char)) (width height : ℚ) (rotation : ℤ)
      (imagePath : List Char)
  deriving DecidableEq

/-- Did the page fail (placeholder inserted, index in
`failed_pages`)? -/
def pageFails : PageOutcome → Bool
  | .ok _ _ _ _ _ => false
  | _ => true

/-- Model of `f"page_{i+1}"`. -/
def pdfChapterId (i : ℕ) : List Char :=
  "page_".toList ++ (Nat.repr (i + 1)).toList

/-- Model of `f"Page {i+1}"`. -/
def pdfPageTitle (i : ℕ) : List Char :=
  "Page ".toList ++ (Nat.repr (i + 1)).toList

/-- The `content` fragment of a rendered page (lines 738-740): an
`<img>` wrapper around the page image (tag text abbreviated). -/
def pageImageHtml (imagePath : List Char) : List Char :=
  "<img src=".toList ++ imagePath ++ ">".toList

/-- The `content` fragment of a placeholder page (lines 848-854,
markup abbreviated; carries the error message). -/
def placeholderHtml (i : ℕ) (msg : List Char) : List Char :=
  "placeholder ".toList ++ pdfChapterId i ++ " ".toList ++ msg

/-- Model of `_insert_placeholder_page`'s chapter (lines 862-865): empty text,
`order = page_idx`. -/
def placeholderChapter (i : ℕ) (msg : List Char) : ChapterContent :=
  { id := pdfChapterId i
    href := pdfChapterId i
    title := pdfPageTitle i
    content := placeholderHtml i msg
    text := []
    order := i }

/-- Model of `_insert_placeholder_page`'s page record (lines 858-861): zero
geometry, no images, zero word count. -/
def placeholderPageData (i : ℕ) : PDFPageData :=
  { page_num := i, width := 0, height := 0, rotation := 0
    has_images := false, word_count := 0 }

/-- Model of `TOCEntry(title=..., href=chapter_id, file_href=chapter_id,
anchor="")` appended for every page when the PDF has no native TOC. -/
def pageTocEntry (i : ℕ) : TOCEntry :=
  .mk (pdfPageTitle i) (pdfChapterId i) (pdfChapterId i) [] []

/-- The lists accumulated by the page loop. -/
structure PdfLoopState where
  spine : List ChapterContent
  pageData : List (ℕ × PDFPageData)
  images : List (List Char × List Char)
  tocAdd : List TOCEntry
  failed : List ℕ

/-- The page loop of `process_pdf` (lines 668-765), from page index
`i`: one spine chapter and one `pdf_page_data` entry per page, real or
placeholder; `order = i` in both branches; `word_count` is
`len(page_text.split())`; failed page indices are collected. -/
def pdfPagesAux (hasNativeToc : Bool) : ℕ → List PageOutcome → PdfLoopState
  | _, [] => ⟨[], [], [], [], []⟩
  | i, o :: rest =>
    let s := pdfPagesAux hasNativeToc (i + 1) rest
    match o with
    | .ok otext w h rot img =>
        let text := otext.getD []
        ⟨{ id := pdfChapterId i
           href := pdfChapterId i
           title := pdfPageTitle i
           content := pageImageHtml img
           text := text
           order := i } :: s.spine,
         (i, { page_num := i, width := w, height := h, rotation := rot
               has_images := true
               word_count := (pyWords text).length }) :: s.pageData,
         (pdfChapterId i, img) :: s.images,
         (if hasNativeToc then s.tocAdd else pageTocEntry i :: s.tocAdd),
         s.failed⟩
    | .loadFail msg =>
        ⟨placeholderChapter i msg :: s.spine,
         (i, placeholderPageData i) :: s.pageData, s.images,
         (if hasNativeToc then s.tocAdd else pageTocEntry i :: s.tocAdd),
         i :: s.failed⟩
    | .renderFail msg =>
        ⟨placeholderChapter i ("Render failed: ".toList ++ msg) :: s.spine,
         (i, placeholderPageData i) :: s.pageData, s.images,
         (if hasNativeToc then s.tocAdd else pageTocEntry i :: s.tocAdd),
         i :: s.failed⟩
    | .unexpectedFail msg =>
        ⟨placeholderChapter i msg :: s.spine,
         (i, placeholderPageData i) :: s.pageData, s.images,
         (if hasNativeToc then s.tocAdd else pageTocEntry i :: s.tocAdd),
         i :: s.failed⟩

/-- Model of `process_pdf` after validation and open (lines 668-831): run the
page loop over the document's pages, raise when every page failed
(lines 773-778), and otherwise assemble the Book (lines 782-801).
Timestamps are supplied as parameters; the atomic directory swap is
modelled separately (`commitSwap`) and assumed successful here. -/
def processPdfBook (meta : BookMetadata) (sourceName : List Char)
    (processedAt addedAt : List Char) (generateThumbnails : Bool)
    (nativeToc : List TOCEntry) (pages : List PageOutcome) :
    Except (List Char) Book :=
  let hasNativeToc := !nativeToc.isEmpty
  let st := pdfPagesAux hasNativeToc 0 pages
  if st.failed.length = pages.length then
    .error ("All pages failed to process".toList)
  else
    .ok { metadata := meta
          spine := st.spine
          toc := nativeToc ++ st.tocAdd
          images := st.images
          source_file := sourceName
          processed_at := processedAt
          added_at := addedAt
          is_pdf := true
          pdf_page_data := st.pageData
          pdf_total_pages := pages.length
          pdf_has_toc := hasNativeToc
          pdf_thumbnails_generated := generateThumbnails
          pdf_source_path := some "source.pdf".toList }

/-! ## Atomic directory swap (`reader3.py`, lines 804-820 and 1282-1295)

Both normalizers commit with the same block: if a prior output
directory exists, remove any stale `.__old` backup, rename the prior
output to the backup, rename the scratch directory into the final
path, and delete the backup; if that second rename raises, rename the
backup back into the final path and re-raise (the enclosing `finally`
then removes the scratch directory).  The filesystem is modelled by
the contents (an arbitrary type `α`) sitting at the three paths;
`rename` moves contents unchanged.  Only the scratch→final rename is
given a failure switch, the one the claim is about. -/

/-- The three directories the commit block touches. -/
structure DirState (α : Type) where
  output : Option α
  backup : Option α
  scratch : Option α

/-- The commit block; returns the final filesystem state and whether
the function raised instead of returning. -/
def commitSwap {α : Type} (fs : DirState α)
    (renameToFinalFails : Bool) : DirState α × Bool :=
  match fs.output with
  | some prior =>
      -- stale backup removed, prior output renamed to the backup
      if renameToFinalFails then
        -- restore the backup to the final path, re-raise; the
        -- `finally` block removes the scratch directory
        ({ output := some prior, backup := none, scratch := none }, true)
      else
        -- scratch renamed into place, backup deleted
        ({ output := fs.scratch, backup := none, scratch := none }, false)
  | none =>
      -- no prior output: a single rename commits the scratch contents
      ({ output := fs.scratch, backup := none, scratch := none }, false)

/-! ## Concrete sample data used by counterexamples and witnesses -/

/-- An EPUB spine whose first item is present but not a content
document (e.g. a stylesheet listed in the spine), and whose second is
an ordinary content document. -/
def sampleEpubItems : List EpubSpineItem :=
  [{ item_id := "item_css".toList, found := true, isContent := false
     href := "style.css".toList, content := [], text := [] },
   { item_id := "item_1".toList, found := true, isContent := true
     href := "ch1.html".toList, content := "<p>Hi</p>".toList
     text := "Hi".toList }]

/-- An EPUB spine with no skipped item. -/
def sampleEpubAllContent : List EpubSpineItem :=
  [{ item_id := "item_1".toList, found := true, isContent := true
     href := "ch1.html".toList, content := [], text := "one".toList },
   { item_id := "item_2".toList, found := true, isContent := true
     href := "ch2.html".toList, content := [], text := "two".toList }]

/-- Minimal metadata for sample books. -/
def sampleMeta : BookMetadata :=
  { title := "T".toList, language := "en".toList }

/-- A 3-page PDF whose middle page fails to render. -/
def samplePdfPages : List PageOutcome :=
  [.ok (some "alpha beta".toList) 10 20 0 "images/page_1.png".toList,
   .renderFail "boom".toList,
   .ok (some "gamma".toList) 10 20 0 "images/page_3.png".toList]

/-- A fallback `Book` value for `Option.getD` extraction. -/
def emptyBook : Book :=
  { metadata := sampleMeta, spine := [], toc := [], images := []
    source_file := [], processed_at := [] }

/-- The `Book` produced by the model of `process_pdf` on
`samplePdfPages` (extracted from the `Except`). -/
def samplePdfBook : Book :=
  ((processPdfBook sampleMeta "s.pdf".toList "p".toList "a".toList true
      [] samplePdfPages).toOption).getD emptyBook

/-- A minimal book used by the index-builder claims: one chapter whose
text survives tokenization and one that tokenizes to nothing. -/
def sampleIndexBook : Book :=
  { metadata := sampleMeta
    spine :=
      [{ id := "c1".toList, href := "ch1.html".toList
         title := "One".toList, content := []
         text := "hello hello world".toList, order := 0 },
       { id := "c2".toList, href := "ch2.html".toList
         title := "Two".toList, content := []
         text := "the 42 a".toList, order := 1 }]
    toc := [], images := [], source_file := []
    processed_at := "2024-01-01".toList }

/-- The first index document built from `sampleIndexBook`. -/
def sampleIndexDoc : IndexDoc :=
  { chapter_index := 0, chapter_title := "One".toList
    chapter_href := "ch1.html".toList, length := 3
    term_freq := [("hello".toList, 2), ("world".toList, 1)] }

/-- The denser chapter of the BM25 sanity check: the query term 5
times in 50 tokens. -/
def denseDoc : IndexDoc :=
  { chapter_index := 0, chapter_title := [], chapter_href := []
    length := 50, term_freq := [("term".toList, 5)] }

/-- The sparser chapter of the BM25 sanity check: the query term once
in 500 tokens. -/
def sparseDoc : IndexDoc :=
  { chapter_index := 1, chapter_title := [], chapter_href := []
    length := 500, term_freq := [("term".toList, 1)] }

/-- The two-chapter pool of the BM25 sanity check. -/
def bm25Pool : List IndexDoc := [denseDoc, sparseDoc]

/-- A concrete filesystem state for the atomic-swap witness: distinct
prior, stale-backup and scratch contents. -/
def sampleDirs : DirState ℕ :=
  { output := some 1, backup := some 2, scratch := some 3 }

/-- The chapter `process_epub` builds from the second item of
`sampleEpubItems`: spine position 0, but `order = 1`. -/
def sampleKeptChapter : ChapterContent :=
  { id := "item_1".toList, href := "ch1.html".toList
    title := sectionTitle 1, content := "<p>Hi</p>".toList
    text := "Hi".toList, order := 1 }

/-- The chapter built from the second item of
`sampleEpubAllContent`. -/
def sampleAllChapter1 : ChapterContent :=
  { id := "item_2".toList, href := "ch2.html".toList
    title := sectionTitle 1, content := [], text := "two".toList
    order := 1 }

/-- A 2-page PDF in which every page fails. -/
def sampleFailPages : List PageOutcome :=
  [.loadFail "bad xref".toList, .unexpectedFail "boom".toList]

/-! ## Theorems -/

/-- Stripping a suffix never empties a token of length at least 2:
either no suffix matches, or the stripped stem keeps more than 2
characters (`len(token) > len(suffix) + 2`). -/
theorem stripOneSuffixAux_ne_nil (t : List Char) (h2 : 2 ≤ t.length) :
    ∀ ss : List (List Char), stripOneSuffixAux t ss ≠ [] := by
  intro ss
  induction ss with
  | nil =>
      simp only [stripOneSuffixAux]
      exact List.ne_nil_of_length_pos (by omega)
  | cons s rest ih =>
      simp only [stripOneSuffixAux]
      split
      · next h =>
          have hlt : s.length + 2 < t.length := by
            have := h
            simp only [Bool.and_eq_true, decide_eq_true_eq] at this
            exact this.2
          apply List.ne_nil_of_length_pos
          rw [List.length_take]
          omega
      · exact ih

/-- The suffix-stripping step of `_normalize_token` never returns the
empty token for an input of length at least 2. -/
theorem stripOneSuffix_ne_nil (t : List Char) (h2 : 2 ≤ t.length) :
    stripOneSuffix t ≠ [] :=
  stripOneSuffixAux_ne_nil t h2 suffixList

/-- The `_tokenize` loop equals the staged pipeline that trims
apostrophes and lowercases, drops short and numeric tokens, strips one
suffix, and only then filters stopwords. -/
theorem keepTokens_eq_stages (toks : List (List Char)) :
    keepTokens toks =
      (((((toks.map (fun t => (stripQuotes t).map pyLower)).filter
          (fun t => 2 ≤ t.length)).filter
          (fun t => ¬ isDigits t)).map stripOneSuffix).filter
          (fun t => t ∉ stopwordList)) := by
  induction toks with
  | nil => rfl
  | cons tok rest ih =>
      by_cases h2 : 2 ≤ ((stripQuotes tok).map pyLower).length
      · have h2' : 2 ≤ (stripQuotes tok).length := by simpa using h2
        by_cases hd : isDigits ((stripQuotes tok).map pyLower) = true
        · have hn : normalizeToken tok = [] := by
            simp only [normalizeToken]
            rw [if_neg (by omega), if_pos hd]
          simp [keepTokens, List.filter_cons, hn, h2', hd, ih]
        · have hn : normalizeToken tok =
              stripOneSuffix ((stripQuotes tok).map pyLower) := by
            simp only [normalizeToken]
            rw [if_neg (by omega), if_neg hd]
          have hne : stripOneSuffix ((stripQuotes tok).map pyLower) ≠ [] :=
            stripOneSuffix_ne_nil _ h2
          have hd' : isDigits ((stripQuotes tok).map pyLower) = false := by
            simpa using hd
          by_cases hs :
              stripOneSuffix ((stripQuotes tok).map pyLower) ∈ stopwordList
          · simp [keepTokens, List.filter_cons, hn, h2', hd', hs, ih]
          · simp [keepTokens, List.filter_cons, hn, h2', hd', hs, hne, ih]
      · have h2' : ¬ 2 ≤ (stripQuotes tok).length := by simpa using h2
        have hn : normalizeToken tok = [] := by
          simp only [normalizeToken]
          rw [if_pos (by omega)]
        simp [keepTokens, List.filter_cons, hn, h2', ih]

/-- C2 (counterexample): `_tokenize` does not equal the claimed
reference pipeline.  On `"thes"` the code strips the suffix first and
then drops the resulting stopword `"the"`, returning `[]`, while the
claimed pipeline (stopword filter before stripping) returns `["the"]`;
on `"''ab"` the code trims the surrounding apostrophes (which the
claimed pipeline lacks) and keeps `"ab"`, while the claimed pipeline
keeps `"''ab"`. -/
theorem tokenize_ne_claimPipeline :
    tokenize "thes".toList ≠ claimPipeline "thes".toList ∧
      tokenize "''ab".toList ≠ claimPipeline "''ab".toList := by
  constructor <;> decide

/-- C2 (amended): for every input string, `_tokenize` equals the
reference pipeline that splits on maximal runs of
letters/digits/apostrophes, trims leading and trailing apostrophes,
lowercases, drops tokens shorter than 2 characters, drops purely
numeric tokens, then strips at most one suffix (testing `ing, edly,
ed, ly, es, s` in that order, stripping the first match with
`len(token) > len(suffix) + 2`, no iterative re-stripping), and only
then drops stopwords — i.e. the numeric drop precedes stripping but
the stopword drop follows it, applied to the stripped token. -/
theorem tokenize_eq_amendedPipeline (s : List Char) :
    tokenize s = amendedPipeline s :=
  keepTokens_eq_stages (splitRuns s)

/-- C9: `sanitize_text` is idempotent on every string: one pass
removes every surrogate, so a second pass takes the
"no surrogates present, return the input unchanged" branch. -/
theorem sanitizeText_idempotent (s : List ℕ) :
    sanitizeText (sanitizeText s) = sanitizeText s := by
  by_cases h : s.any isSurrogate = true
  · have hclean :
        (s.map (fun c => if isSurrogate c then 0xFFFD else c)).any
          isSurrogate = false := by
      rw [List.any_map, List.any_eq_false]
      intro c _
      simp only [Function.comp_apply]
      by_cases hc : isSurrogate c = true
      · rw [if_pos hc]; decide
      · rw [if_neg hc]; exact hc
    simp [sanitizeText, h, hclean]
  · simp [sanitizeText, h]

/-- C8: a query whose tokenization leaves no surviving terms makes
`semantic_search_books` return the empty result list immediately, for
any document pool and limit, without error. -/
theorem semanticSearch_empty_query (idf : ℕ → ℕ → ℚ) (query : List Char)
    (pool : List (List Char × IndexDoc)) (limit : ℕ)
    (h : queryTerms query = []) :
    semanticSearchBooks idf query pool limit = [] := by
  simp [semanticSearchBooks, h]

/-- C8 witness: both `"the a an"` (all stopwords or too short) and the
empty query tokenize to nothing, and searching a non-empty pool with
them returns `[]`. -/
theorem semanticSearch_empty_query_witness :
    queryTerms "the a an".toList = [] ∧ queryTerms [] = [] ∧
      semanticSearchBooks (fun _ _ => 1) "the a an".toList
        [("b1".toList, denseDoc)] 100 = [] ∧
      semanticSearchBooks (fun _ _ => 1) [] [("b1".toList, denseDoc)]
        100 = [] :=
  ⟨by decide, by decide,
   semanticSearch_empty_query _ _ _ _ (by decide),
   semanticSearch_empty_query _ _ _ _ (by decide)⟩

/-- C4: under the BM25 scoring of `semantic_search_books` (`k1 = 1.2`,
`b = 0.75`, `avg_doc_len` over the whole two-chapter pool, document
frequency from the pool), for the single-term query the chapter with
`tf = 5` in 50 tokens scores strictly higher than the chapter with
`tf = 1` in 500 tokens, for every positive value of the idf factor.
In the code the factor is `ln(1 + (N - df + 0.5)/(df + 0.5))`, which
is positive for every reachable `df ≤ N` since the argument of the
logarithm exceeds 1; here (exact rational arithmetic) it is an
arbitrary positive parameter. -/
theorem bm25_denser_scores_higher (idf : ℕ → ℕ → ℚ)
    (hpos : 0 < idf bm25Pool.length
      (docFreq bm25Pool "term".toList)) :
    docScore idf bm25Pool.length (docFreq bm25Pool)
        (avgDocLen bm25Pool) ["term".toList] sparseDoc <
      docScore idf bm25Pool.length (docFreq bm25Pool)
        (avgDocLen bm25Pool) ["term".toList] denseDoc := by
  have hdf : docFreq bm25Pool "term".toList = 2 := by decide
  have hn : bm25Pool.length = 2 := rfl
  have havg : avgDocLen bm25Pool = 275 := by
    norm_num [avgDocLen, bm25Pool, denseDoc, sparseDoc]
  rw [hn, hdf] at hpos
  simp only [docScore, List.map_cons, List.map_nil, List.sum_cons,
    List.sum_nil, hn, hdf, havg]
  norm_num [tfGet, sparseDoc, denseDoc, bm25K1, bm25B]
  exact mul_lt_mul_of_pos_left (by norm_num) hpos

/-- C4 witness: the comparison instantiated with idf factor 1. -/
theorem bm25_denser_scores_higher_witness :
    (0 : ℚ) < 1 ∧
      docScore (fun _ _ => 1) bm25Pool.length (docFreq bm25Pool)
          (avgDocLen bm25Pool) ["term".toList] sparseDoc <
        docScore (fun _ _ => 1) bm25Pool.length (docFreq bm25Pool)
          (avgDocLen bm25Pool) ["term".toList] denseDoc :=
  ⟨by norm_num, bm25_denser_scores_higher (fun _ _ => 1) (by norm_num)⟩

/-- C3 (counterexample): on an index file whose contents are not valid
JSON, `ensure_book_index` does not treat the index as absent — the
`json.load` exception propagates and no index is returned. -/
theorem ensureBookIndex_malformed_raises :
    ensureBookIndex "b1".toList sampleIndexBook .invalidJson
        "2024-01-02".toList =
      .error "JSONDecodeError".toList := rfl

/-- C3 (amended): if the persisted index file is missing,
`ensure_book_index` treats the index as absent and rebuilds, returning
a fresh index without raising; a file that parses as JSON but is falsy
(e.g. `{}`, `[]`, `null`) is likewise rebuilt; but a file whose
contents are not valid JSON makes the parse exception propagate
instead of triggering a rebuild. -/
theorem ensureBookIndex_missing_rebuilds (book_id : List Char)
    (book : Book) (generated_at : List Char) :
    ensureBookIndex book_id book .missing generated_at =
        .ok (.rebuilt (buildIndex book_id book generated_at)) ∧
      ∀ j : JsonVal, jsonTruthy j = false →
        ensureBookIndex book_id book (.parsed j) generated_at =
          .ok (.rebuilt (buildIndex book_id book generated_at)) := by
  refine ⟨rfl, fun j hj => ?_⟩
  simp [ensureBookIndex, loadIndex, shouldRebuild, hj]


/-- C3 witness: the rebuild paths at a concrete book, with the falsy
parsed value `null`. -/
theorem ensureBookIndex_missing_rebuilds_witness :
    ensureBookIndex "b1".toList sampleIndexBook .missing
        "2024-01-02".toList =
      .ok (.rebuilt (buildIndex "b1".toList sampleIndexBook
        "2024-01-02".toList)) ∧
    jsonTruthy .null = false ∧
    ensureBookIndex "b1".toList sampleIndexBook (.parsed .null)
        "2024-01-02".toList =
      .ok (.rebuilt (buildIndex "b1".toList sampleIndexBook
        "2024-01-02".toList)) :=
  ⟨(ensureBookIndex_missing_rebuilds _ _ _).1, rfl,
   (ensureBookIndex_missing_rebuilds _ _ _).2 .null rfl⟩

/-- C5: in the commit block shared by both normalizers, when a prior
output directory exists and the rename of the scratch directory into
the final path fails, the prior output contents are back at the final
path unchanged and the function raises instead of returning. -/
theorem commitSwap_restores_prior {α : Type} (fs : DirState α)
    (prior : α) (hout : fs.output = some prior) :
    (commitSwap fs true).1.output = some prior ∧
      (commitSwap fs true).2 = true := by
  simp [commitSwap, hout]

/-- C5 witness: a concrete filesystem with distinct prior, backup and
scratch contents. -/
theorem commitSwap_restores_prior_witness :
    sampleDirs.output = some 1 ∧
      ((commitSwap sampleDirs true).1.output = some 1 ∧
        (commitSwap sampleDirs true).2 = true) :=
  ⟨rfl, commitSwap_restores_prior sampleDirs 1 rfl⟩

/-- Bumping one token adds exactly one to the total count. -/
theorem sumCounts_counterAdd (m : List (List Char × ℕ)) (t : List Char) :
    sumCounts (counterAdd m t) = sumCounts m + 1 := by
  induction m with
  | nil => rfl
  | cons kv rest ih =>
      obtain ⟨k, v⟩ := kv
      by_cases h : k = t
      · simp [counterAdd, h, sumCounts]
        omega
      · simp [counterAdd, h, sumCounts] at *
        omega

/-- The counts of `Counter(tokens)` sum to the number of tokens. -/
theorem sumCounts_counter (toks : List (List Char)) :
    sumCounts (counter toks) = toks.length := by
  suffices h : ∀ (toks : List (List Char)) (m : List (List Char × ℕ)),
      sumCounts (toks.foldl counterAdd m) = sumCounts m + toks.length by
    simpa [counter, sumCounts] using h toks []
  intro toks
  induction toks with
  | nil => simp
  | cons t rest ih =>
      intro m
      simp only [List.foldl_cons, ih, sumCounts_counterAdd,
        List.length_cons]
      omega

/-- Bumping preserves strict positivity of every count. -/
theorem counterAdd_pos (m : List (List Char × ℕ)) (t : List Char)
    (h : ∀ p ∈ m, 1 ≤ p.2) : ∀ p ∈ counterAdd m t, 1 ≤ p.2 := by
  induction m with
  | nil =>
      intro p hp
      simp [counterAdd] at hp
      rw [hp]
  | cons kv rest ih =>
      obtain ⟨k, v⟩ := kv
      intro p hp
      by_cases hk : k = t
      · simp [counterAdd, hk] at hp
        rcases hp with h1 | h2
        · rw [h1]
          show 1 ≤ v + 1
          omega
        · exact h p (by simp [h2])
      · simp [counterAdd, hk] at hp
        rcases hp with h1 | h2
        · exact h p (by simp [h1])
        · exact ih (fun q hq => h q (by simp [hq])) p h2

/-- Every count stored by `Counter(tokens)` is at least 1. -/
theorem counter_pos (toks : List (List Char)) :
    ∀ p ∈ counter toks, 1 ≤ p.2 := by
  suffices h : ∀ (toks : List (List Char)) (m : List (List Char × ℕ)),
      (∀ p ∈ m, 1 ≤ p.2) → ∀ p ∈ toks.foldl counterAdd m, 1 ≤ p.2 by
    exact h toks [] (by simp)
  intro toks
  induction toks with
  | nil => exact fun m hm => by simpa using hm
  | cons t rest ih =>
      intro m hm
      simp only [List.foldl_cons]
      exact ih _ (counterAdd_pos m t hm)

/-- Bumping never empties a counter. -/
theorem counterAdd_ne_nil (m : List (List Char × ℕ)) (t : List Char) :
    counterAdd m t ≠ [] := by
  cases m with
  | nil => simp [counterAdd]
  | cons kv rest =>
      obtain ⟨k, v⟩ := kv
      by_cases h : k = t <;> simp [counterAdd, h]

/-- The counter of a non-empty token list is non-empty. -/
theorem counter_ne_nil (toks : List (List Char)) (h : toks ≠ []) :
    counter toks ≠ [] := by
  suffices hs : ∀ (toks : List (List Char)) (m : List (List Char × ℕ)),
      m ≠ [] → toks.foldl counterAdd m ≠ [] by
    cases toks with
    | nil => exact absurd rfl h
    | cons t rest =>
        exact hs rest (counterAdd [] t) (counterAdd_ne_nil [] t)
  intro toks
  induction toks with
  | nil => exact fun m hm => hm
  | cons t rest ih =>
      intro m _
      exact ih (counterAdd m t) (counterAdd_ne_nil m t)

/-- Invariant of the `documents` loop: every stored entry has a
positive length, a non-empty term-frequency map with positive counts,
and a length equal to the total of the counts. -/
theorem buildDocumentsAux_inv (spine : List ChapterContent) :
    ∀ (i : ℕ) (d : IndexDoc), d ∈ buildDocumentsAux i spine →
      1 ≤ d.length ∧ d.term_freq ≠ [] ∧ (∀ p ∈ d.term_freq, 1 ≤ p.2) ∧
        d.length = sumCounts d.term_freq := by
  induction spine with
  | nil => intro i d hd; simp [buildDocumentsAux] at hd
  | cons ch rest ih =>
      intro i d hd
      by_cases ht : tokenize ch.text = []
      · rw [buildDocumentsAux, if_pos ht] at hd
        exact ih (i + 1) d hd
      · rw [buildDocumentsAux, if_neg ht] at hd
        rcases List.mem_cons.mp hd with h1 | h2
        · subst h1
          refine ⟨?_, counter_ne_nil _ ht, counter_pos _, ?_⟩
          · have := List.length_pos.mpr ht
            simpa using this
          · simp [sumCounts_counter]
        · exact ih (i + 1) d h2

/-- C10: every index built by `ensure_book_index`'s rebuild path has
`chapter_count` equal to the full spine length (even when chapters
were omitted from `documents`), and every stored document has
`length ≥ 1`, a non-empty `term_freq` with every count at least 1,
and `length` equal to the sum of the counts. -/
theorem buildIndex_invariants (book_id : List Char) (book : Book)
    (generated_at : List Char) :
    (buildIndex book_id book generated_at).chapter_count =
        book.spine.length ∧
      ∀ d ∈ (buildIndex book_id book generated_at).documents,
        1 ≤ d.length ∧ d.term_freq ≠ [] ∧
          (∀ p ∈ d.term_freq, 1 ≤ p.2) ∧
          d.length = sumCounts d.term_freq :=
  ⟨rfl, fun d hd => buildDocumentsAux_inv book.spine 0 d hd⟩

/-- C10 witness: the invariant instantiated on a concrete two-chapter
book (one chapter tokenizes to `hello hello world`, the other to
nothing, so `chapter_count = 2` with a single stored document). -/
theorem buildIndex_invariants_witness :
    sampleIndexDoc ∈ (buildIndex "b1".toList sampleIndexBook
        "2024-01-02".toList).documents ∧
      (1 ≤ sampleIndexDoc.length ∧ sampleIndexDoc.term_freq ≠ [] ∧
        (∀ p ∈ sampleIndexDoc.term_freq, 1 ≤ p.2) ∧
        sampleIndexDoc.length = sumCounts sampleIndexDoc.term_freq) ∧
      (buildIndex "b1".toList sampleIndexBook
        "2024-01-02".toList).chapter_count =
        sampleIndexBook.spine.length :=
  ⟨by decide,
   (buildIndex_invariants "b1".toList sampleIndexBook
      "2024-01-02".toList).2 sampleIndexDoc (by decide),
   (buildIndex_invariants "b1".toList sampleIndexBook
      "2024-01-02".toList).1⟩

/-- The PDF page loop emits exactly one spine chapter per page. -/
theorem pdfPagesAux_spine_length (hnt : Bool) :
    ∀ (pages : List PageOutcome) (i : ℕ),
      (pdfPagesAux hnt i pages).spine.length = pages.length := by
  intro pages
  induction pages with
  | nil => intro i; rfl
  | cons o rest ih =>
      intro i
      cases o <;> simp [pdfPagesAux, ih]

/-- The PDF page loop emits exactly one `pdf_page_data` entry per
page. -/
theorem pdfPagesAux_pageData_length (hnt : Bool) :
    ∀ (pages : List PageOutcome) (i : ℕ),
      (pdfPagesAux hnt i pages).pageData.length = pages.length := by
  intro pages
  induction pages with
  | nil => intro i; rfl
  | cons o rest ih =>
      intro i
      cases o <;> simp [pdfPagesAux, ih]

/-- In the PDF page loop starting at `i`, the chapter at position `j`
has `order = i + j`, whether rendered or placeholder. -/
theorem pdfPagesAux_spine_order (hnt : Bool) :
    ∀ (pages : List PageOutcome) (i j : ℕ), j < pages.length →
      ((pdfPagesAux hnt i pages).spine.get? j).map (fun c => c.order) =
        some (i + j) := by
  intro pages
  induction pages with
  | nil => intro i j hj; simp at hj
  | cons o rest ih =>
      intro i j hj
      cases j with
      | zero =>
          cases o <;> simp [pdfPagesAux, placeholderChapter]
      | succ j' =>
          have hj' : j' < rest.length := by
            simpa using Nat.lt_of_succ_lt_succ hj
          have hrec := ih (i + 1) j' hj'
          have harith : (i + 1) + j' = i + (j' + 1) := by omega
          cases o <;>
            simpa [pdfPagesAux, harith] using hrec

/-- In the PDF page loop starting at `i`, a failing page at position
`j` yields a placeholder chapter: empty text and `order = i + j`. -/
theorem pdfPagesAux_spine_placeholder (hnt : Bool) :
    ∀ (pages : List PageOutcome) (i j : ℕ) (hj : j < pages.length),
      pageFails (pages.get ⟨j, hj⟩) = true →
      ((pdfPagesAux hnt i pages).spine.get? j).map
          (fun c => (c.text, c.order)) = some ([], i + j) := by
  intro pages
  induction pages with
  | nil => intro i j hj; simp at hj
  | cons o rest ih =>
      intro i j hj hfail
      cases j with
      | zero =>
          cases o <;>
            simp_all [pdfPagesAux, placeholderChapter, pageFails]
      | succ j' =>
          have hj' : j' < rest.length := by
            simpa using Nat.lt_of_succ_lt_succ hj
          have hfail' : pageFails (rest.get ⟨j', hj'⟩) = true := by
            simpa using hfail
          have hrec := ih (i + 1) j' hj' hfail'
          have harith : (i + 1) + j' = i + (j' + 1) := by omega
          cases o <;>
            simpa [pdfPagesAux, harith] using hrec

/-- In the PDF page loop starting at `i`, a failing page at position
`j` yields the page-data entry `(i + j, placeholder)` with zero word
count. -/
theorem pdfPagesAux_pageData_placeholder (hnt : Bool) :
    ∀ (pages : List PageOutcome) (i j : ℕ) (hj : j < pages.length),
      pageFails (pages.get ⟨j, hj⟩) = true →
      ((pdfPagesAux hnt i pages).pageData.get? j).map
          (fun p => (p.1, p.2.word_count)) = some (i + j, 0) := by
  intro pages
  induction pages with
  | nil => intro i j hj; simp at hj
  | cons o rest ih =>
      intro i j hj hfail
      cases j with
      | zero =>
          cases o <;>
            simp_all [pdfPagesAux, placeholderPageData, pageFails]
      | succ j' =>
          have hj' : j' < rest.length := by
            simpa using Nat.lt_of_succ_lt_succ hj
          have hfail' : pageFails (rest.get ⟨j', hj'⟩) = true := by
            simpa using hfail
          have hrec := ih (i + 1) j' hj' hfail'
          have harith : (i + 1) + j' = i + (j' + 1) := by omega
          cases o <;>
            simpa [pdfPagesAux, harith] using hrec

/-- The failed-page list never outgrows the page list. -/
theorem pdfPagesAux_failed_le (hnt : Bool) :
    ∀ (pages : List PageOutcome) (i : ℕ),
      (pdfPagesAux hnt i pages).failed.length ≤ pages.length := by
  intro pages
  induction pages with
  | nil => intro i; exact le_refl 0
  | cons o rest ih =>
      intro i
      cases o <;> simp [pdfPagesAux] <;>
        · have := ih (i + 1)
          omega

/-- The equality `len(failed_pages) == total_pages` holds exactly when every page
failed. -/
theorem pdfPagesAux_failed_eq_iff (hnt : Bool) :
    ∀ (pages : List PageOutcome) (i : ℕ),
      ((pdfPagesAux hnt i pages).failed.length = pages.length ↔
        ∀ p ∈ pages, pageFails p = true) := by
  intro pages
  induction pages with
  | nil => intro i; simp [pdfPagesAux]
  | cons o rest ih =>
      intro i
      cases o with
      | ok t w h r img =>
          simp only [pdfPagesAux, List.length_cons]
          constructor
          · intro heq
            have := pdfPagesAux_failed_le hnt rest (i + 1)
            omega
          · intro hall
            have := hall (.ok t w h r img) (List.mem_cons_self _ _)
            simp [pageFails] at this
      | loadFail m =>
          simp only [pdfPagesAux, List.length_cons]
          constructor
          · intro heq
            intro p hp
            rcases List.mem_cons.mp hp with h1 | h2
            · subst h1; rfl
            · exact ((ih (i + 1)).mp (by omega)) p h2
          · intro hall
            have := (ih (i + 1)).mpr
              (fun p hp => hall p (List.mem_cons_of_mem _ hp))
            omega
      | renderFail m =>
          simp only [pdfPagesAux, List.length_cons]
          constructor
          · intro heq
            intro p hp
            rcases List.mem_cons.mp hp with h1 | h2
            · subst h1; rfl
            · exact ((ih (i + 1)).mp (by omega)) p h2
          · intro hall
            have := (ih (i + 1)).mpr
              (fun p hp => hall p (List.mem_cons_of_mem _ hp))
            omega
      | unexpectedFail m =>
          simp only [pdfPagesAux, List.length_cons]
          constructor
          · intro heq
            intro p hp
            rcases List.mem_cons.mp hp with h1 | h2
            · subst h1; rfl
            · exact ((ih (i + 1)).mp (by omega)) p h2
          · intro hall
            have := (ih (i + 1)).mpr
              (fun p hp => hall p (List.mem_cons_of_mem _ hp))
            omega

/-- Every chapter kept by the EPUB loop starting at index `i` has
`order ≥ i`. -/
theorem epubSpineAux_order_mem :
    ∀ (items : List EpubSpineItem) (i : ℕ) (c : ChapterContent),
      c ∈ epubSpineAux i items → i ≤ c.order := by
  intro items
  induction items with
  | nil => intro i c hc; simp [epubSpineAux] at hc
  | cons it rest ih =>
      intro i c hc
      by_cases hk : (it.found && it.isContent) = true
      · rw [epubSpineAux, if_pos hk] at hc
        rcases List.mem_cons.mp hc with h1 | h2
        · subst h1; exact le_refl i
        · exact le_trans (Nat.le_succ i) (ih (i + 1) c h2)
      · rw [epubSpineAux, if_neg hk] at hc
        exact le_trans (Nat.le_succ i) (ih (i + 1) c hc)

/-- The chapter at position `j` of the EPUB loop starting at `i` has
`order ≥ i + j`. -/
theorem epubSpineAux_order_ge :
    ∀ (items : List EpubSpineItem) (i j : ℕ) (ch : ChapterContent),
      (epubSpineAux i items).get? j = some ch → i + j ≤ ch.order := by
  intro items
  induction items with
  | nil => intro i j ch hch; simp [epubSpineAux] at hch
  | cons it rest ih =>
      intro i j ch hch
      by_cases hk : (it.found && it.isContent) = true
      · rw [epubSpineAux, if_pos hk] at hch
        cases j with
        | zero =>
            simp only [List.get?_cons_zero, Option.some.injEq] at hch
            subst hch
            simp
        | succ j' =>
            simp only [List.get?_cons_succ] at hch
            have := ih (i + 1) j' ch hch
            omega
      · rw [epubSpineAux, if_neg hk] at hch
        have := ih (i + 1) j ch hch
        omega

/-- The orders of the chapters kept by the EPUB loop are strictly
increasing along the spine. -/
theorem epubSpineAux_orders_pairwise :
    ∀ (items : List EpubSpineItem) (i : ℕ),
      ((epubSpineAux i items).map (fun c => c.order)).Pairwise (· < ·) := by
  intro items
  induction items with
  | nil => intro i; simp [epubSpineAux]
  | cons it rest ih =>
      intro i
      by_cases hk : (it.found && it.isContent) = true
      · rw [epubSpineAux, if_pos hk]
        simp only [List.map_cons, List.pairwise_cons]
        refine ⟨?_, ih (i + 1)⟩
        intro o ho
        rcases List.mem_map.mp ho with ⟨c, hc, rfl⟩
        have := epubSpineAux_order_mem rest (i + 1) c hc
        omega
      · rw [epubSpineAux, if_neg hk]
        exact ih (i + 1)

/-- When no spine item is skipped, the EPUB loop keeps every item and
numbers the chapters consecutively from its start index. -/
theorem epubSpineAux_all_content :
    ∀ (items : List EpubSpineItem) (i : ℕ),
      (∀ it ∈ items, it.found = true ∧ it.isContent = true) →
      ∀ (j : ℕ) (ch : ChapterContent),
        (epubSpineAux i items).get? j = some ch → ch.order = i + j := by
  intro items
  induction items with
  | nil => intro i _ j ch hch; simp [epubSpineAux] at hch
  | cons it rest ih =>
      intro i hall j ch hch
      have hit := hall it (List.mem_cons_self it rest)
      have hk : (it.found && it.isContent) = true := by
        rw [hit.1, hit.2]; rfl
      rw [epubSpineAux, if_pos hk] at hch
      cases j with
      | zero =>
          simp only [List.get?_cons_zero, Option.some.injEq] at hch
          subst hch
          simp
      | succ j' =>
          simp only [List.get?_cons_succ] at hch
          have := ih (i + 1)
            (fun x hx => hall x (List.mem_cons_of_mem it hx)) j' ch hch
          omega

/-- C1 (counterexample): `process_epub` can return a Book violating
`book.spine[i].order == i`.  On a spine whose first item is present
but not a content document, the single kept chapter sits at spine
index 0 with `order = 1` (its index in the source EPUB spine). -/
theorem epubSpine_order_mismatch :
    ¬ ∀ (i : ℕ) (ch : ChapterContent),
        (epubSpine sampleEpubItems).get? i = some ch → ch.order = i := by
  intro hall
  have h0 := hall 0 sampleKeptChapter (by decide)
  exact absurd h0 (by decide)

/-- C1 (amended): for every Book returned by `process_pdf`,
`book.spine[i].order == i` for all `i`; for every Book returned by
`process_epub`, `spine[i].order` is the index of the chapter's source
item in the EPUB spine, so the orders satisfy `i ≤ spine[i].order`,
are strictly increasing along the spine, and equal `i` for all `i`
whenever no spine item was skipped (every item found and classified as
a content document). -/
theorem spine_order_characterization :
    (∀ (meta : BookMetadata) (src pAt aAt : List Char) (gt : Bool)
        (ntoc : List TOCEntry) (pages : List PageOutcome) (b : Book),
        processPdfBook meta src pAt aAt gt ntoc pages = .ok b →
        ∀ i : ℕ, i < b.spine.length →
          (b.spine.get? i).map (fun c => c.order) = some i) ∧
      (∀ (items : List EpubSpineItem) (i : ℕ) (ch : ChapterContent),
        (epubSpine items).get? i = some ch → i ≤ ch.order) ∧
      (∀ items : List EpubSpineItem,
        ((epubSpine items).map (fun c => c.order)).Pairwise (· < ·)) ∧
      (∀ items : List EpubSpineItem,
        (∀ it ∈ items, it.found = true ∧ it.isContent = true) →
        ∀ (i : ℕ) (ch : ChapterContent),
          (epubSpine items).get? i = some ch → ch.order = i) := by
  refine ⟨?_, ?_, ?_, ?_⟩
  · intro meta src pAt aAt gt ntoc pages b hb i hi
    have hspine : b.spine =
        (pdfPagesAux (!ntoc.isEmpty) 0 pages).spine := by
      rw [processPdfBook] at hb
      by_cases hf : (pdfPagesAux (!ntoc.isEmpty) 0 pages).failed.length =
          pages.length
      · rw [if_pos hf] at hb; cases hb
      · rw [if_neg hf] at hb
        cases hb
        rfl
    rw [hspine] at hi ⊢
    have hlen : i < pages.length := by
      rwa [pdfPagesAux_spine_length] at hi
    have := pdfPagesAux_spine_order (!ntoc.isEmpty) pages 0 i hlen
    simpa using this
  · intro items i ch hch
    simpa using epubSpineAux_order_ge items 0 i ch hch
  · intro items
    exact epubSpineAux_orders_pairwise items 0
  · intro items hall i ch hch
    simpa using epubSpineAux_all_content items 0 hall i ch hch

/-- C1 witness: a PDF book whose page-0 chapter has order 0; an EPUB
spine with a skipped first item whose kept chapter has order 1 ≥ 0 and
strictly increasing orders; and a skip-free EPUB spine whose chapter
at index 1 has order 1. -/
theorem spine_order_characterization_witness :
    (samplePdfBook.spine.get? 0).map (fun c => c.order) = some 0 ∧
      0 ≤ sampleKeptChapter.order ∧
      ((epubSpine sampleEpubItems).map (fun c => c.order)).Pairwise
        (· < ·) ∧
      sampleAllChapter1.order = 1 :=
  ⟨spine_order_characterization.1 sampleMeta "s.pdf".toList
      "p".toList "a".toList true [] samplePdfPages samplePdfBook rfl 0
      (by decide),
   spine_order_characterization.2.1 sampleEpubItems 0
      sampleKeptChapter (by decide),
   spine_order_characterization.2.2.1 sampleEpubItems,
   spine_order_characterization.2.2.2 sampleEpubAllContent (by decide)
      1 sampleAllChapter1 (by decide)⟩

/-- C6: when a proper non-empty subset of a validated PDF's pages
fails, `process_pdf` still returns a Book whose spine and
`pdf_page_data` have exactly one entry per source page
(`pdf_total_pages` included), with each failed page's chapter holding
empty text at its own index and its page record holding zero word
count — indices stay contiguous and 1:1 with the source page count. -/
theorem processPdf_page_contiguity (meta : BookMetadata)
    (src pAt aAt : List Char) (gt : Bool) (ntoc : List TOCEntry)
    (pages : List PageOutcome)
    (hfail : ∃ p ∈ pages, pageFails p = true)
    (hsucc : ∃ p ∈ pages, pageFails p = false) :
    (∀ e, processPdfBook meta src pAt aAt gt ntoc pages ≠ .error e) ∧
      ∀ b, processPdfBook meta src pAt aAt gt ntoc pages = .ok b →
        b.spine.length = pages.length ∧
        b.pdf_total_pages = pages.length ∧
        b.pdf_page_data.length = pages.length ∧
        ∀ (i : ℕ) (hi : i < pages.length),
          pageFails (pages.get ⟨i, hi⟩) = true →
          (b.spine.get? i).map (fun c => (c.text, c.order)) =
              some ([], i) ∧
            (b.pdf_page_data.get? i).map
              (fun p => (p.1, p.2.word_count)) = some (i, 0) := by
  have hne : ¬ (pdfPagesAux (!ntoc.isEmpty) 0 pages).failed.length =
      pages.length := by
    intro heq
    obtain ⟨p, hp, hpf⟩ := hsucc
    have := (pdfPagesAux_failed_eq_iff (!ntoc.isEmpty) pages 0).mp heq p hp
    rw [hpf] at this
    cases this
  constructor
  · intro e he
    simp only [processPdfBook] at he
    rw [if_neg hne] at he
    cases he
  · intro b hb
    simp only [processPdfBook] at hb
    rw [if_neg hne] at hb
    cases hb
    refine ⟨pdfPagesAux_spine_length _ pages 0, rfl,
      pdfPagesAux_pageData_length _ pages 0, ?_⟩
    intro i hi hif
    constructor
    · simpa using
        pdfPagesAux_spine_placeholder (!ntoc.isEmpty) pages 0 i hi hif
    · simpa using
        pdfPagesAux_pageData_placeholder (!ntoc.isEmpty) pages 0 i hi hif

/-- C6 witness: the 3-page sample PDF whose middle page fails to
render keeps 3 spine chapters and 3 page records, with a placeholder
at index 1. -/
theorem processPdf_page_contiguity_witness :
    samplePdfBook.spine.length = samplePdfPages.length ∧
      samplePdfBook.pdf_total_pages = samplePdfPages.length ∧
      samplePdfBook.pdf_page_data.length = samplePdfPages.length ∧
      (samplePdfBook.spine.get? 1).map (fun c => (c.text, c.order)) =
        some ([], 1) ∧
      (samplePdfBook.pdf_page_data.get? 1).map
        (fun p => (p.1, p.2.word_count)) = some (1, 0) := by
  have h := (processPdf_page_contiguity sampleMeta "s.pdf".toList
    "p".toList "a".toList true [] samplePdfPages (by decide)
    (by decide)).2 samplePdfBook rfl
  exact ⟨h.1, h.2.1, h.2.2.1,
    (h.2.2.2 1 (by decide) (by decide)).1,
    (h.2.2.2 1 (by decide) (by decide)).2⟩

/-- C7: when every page of a validated (hence non-empty) PDF fails,
`process_pdf` raises instead of returning an all-placeholder Book. -/
theorem processPdf_all_failed_raises (meta : BookMetadata)
    (src pAt aAt : List Char) (gt : Bool) (ntoc : List TOCEntry)
    (pages : List PageOutcome) (hne : pages ≠ [])
    (hall : ∀ p ∈ pages, pageFails p = true) :
    processPdfBook meta src pAt aAt gt ntoc pages =
      .error "All pages failed to process".toList := by
  simp only [processPdfBook]
  rw [if_pos ((pdfPagesAux_failed_eq_iff (!ntoc.isEmpty) pages 0).mpr hall)]

/-- C7 witness: a 2-page sample whose pages both fail makes the model
of `process_pdf` return the all-pages-failed error. -/
theorem processPdf_all_failed_raises_witness :
    sampleFailPages ≠ [] ∧
      (∀ p ∈ sampleFailPages, pageFails p = true) ∧
      processPdfBook sampleMeta "s.pdf".toList "p".toList "a".toList
          true [] sampleFailPages =
        .error "All pages failed to process".toList :=
  ⟨by decide, by decide,
   processPdf_all_failed_raises sampleMeta "s.pdf".toList "p".toList
     "a".toList true [] sampleFailPages (by decide) (by decide)⟩

end Reader3
